import Mathlib

/-!
Shallow embedding of the geojson_utils repository (src/geojson_utils.py,
src/gj_to_gpkg_foss.py): the schema builder, geometry classifier, row builder
and merger, together with theorems checking the specification's claims.

Python conventions modelled explicitly:
  * a Python exception is an `Except PyErr` error value;
  * a Python dict of feature properties is an insertion-ordered association
    list `List (String × PValue)` (keys unique in real dicts; where that
    matters it appears as a well-formedness hypothesis);
  * `sorted` on strings is lexicographic comparison by code point, matching
    `String`'s linear order;
  * the geometry-construction collaborator `arcpy.AsShape` is modelled as
    succeeding exactly when the geometry payload carries its required members
    (a `type` tag and a coordinate payload) and raising `KeyError` otherwise,
    which is the only failure of it that `parse_geometry` handles.
-/

/-- An untyped scalar property value, as found in GeoJSON `properties`. -/
inductive PValue where
  | str (s : String)
  | int (n : Int)
  | bool (b : Bool)
  | null
deriving DecidableEq, Repr

/-- Python `str()` applied to a property value (line 64 coerces every value). -/
def PValue.pystr : PValue → String
  | .str s => s
  | .int n => toString n
  | .bool b => cond b "True" "False"
  | .null => "None"

/-- A GeoJSON geometry payload: its `type` member (`none` when the member is
absent) and whether the coordinate payload is present.  Coordinate contents are
opaque to every algorithm in the repository, so they are abstracted away. -/
structure Geometry where
  gtype : Option String
  hasCoords : Bool
deriving DecidableEq, Repr

/-- The opaque in-memory geometry value produced by the construction
collaborator (`arcpy.AsShape`); it is determined by the source payload. -/
structure EsriGeom where
  source : Geometry
deriving DecidableEq, Repr

/-- The Python exceptions this code can raise. -/
inductive PyErr where
  | keyError
  | attributeError
  | typeError
  | indexError
deriving DecidableEq, Repr

/-- Model of `arcpy.AsShape`: builds an engine geometry from the raw payload,
raising `KeyError` when a required member (`type`, `coordinates`) is missing. -/
def asShape (g : Geometry) : Except PyErr EsriGeom :=
  if g.gtype.isSome && g.hasCoords then .ok ⟨g⟩ else .error .keyError

/-- A feature's `properties`: an insertion-ordered dict from name to value. -/
abbrev Props := List (String × PValue)

/-- One GeoJSON feature.  `geometry` is `none` when the member is absent
(`i['geometry']` then raises `KeyError`); `properties` is `none` when the
member is absent or null (`i.get('properties')` then yields `None`, which both
passes of `build_schema` treat the same way:  pass 1 hits it first). -/
structure Feature where
  geometry : Option Geometry
  properties : Option Props
deriving DecidableEq, Repr

/-- A FeatureCollection: its feature list plus the remaining top-level members
of the JSON object (abstracted as string pairs, untouched by the code). -/
structure FC where
  meta : List (String × String)
  features : List Feature
deriving DecidableEq, Repr

/-- The dictionary returned by `parse_geometry` on success. -/
structure ParsedGeom where
  type : String
  esri_geom : EsriGeom
deriving DecidableEq, Repr

/-- `GeoJSONUtils.parse_geometry` (src/geojson_utils.py lines 88-118).
`none` models the Python `False` return (both for the caught `KeyError` of a
malformed payload and for an unrecognized geometry type). -/
def parse_geometry (gj_geom : Geometry) : Option ParsedGeom :=
  match asShape gj_geom with
  | .error _ => none
  | .ok esri_geom =>
    match gj_geom.gtype with
    | some t =>
      if t = "Point" then some ⟨"POINT", esri_geom⟩
      else if t = "LineString" ∨ t = "MultiLineString" then some ⟨"POLYLINE", esri_geom⟩
      else if t = "Polygon" ∨ t = "MultiPolygon" then some ⟨"POLYGON", esri_geom⟩
      else none
    | none => none

/-- One cell of an output row: the prepended geometry value or a text value. -/
inductive Cell where
  | geom (g : EsriGeom)
  | text (s : String)
deriving DecidableEq, Repr

/-- An output row: the flat Python list built at lines 64-80. -/
abbrev Row := List Cell

instance {ε α : Type} [DecidableEq ε] [DecidableEq α] : DecidableEq (Except ε α)
  | .error e, .error f => decidable_of_iff (e = f) (by simp)
  | .error _, .ok _ => isFalse (by simp)
  | .ok _, .error _ => isFalse (by simp)
  | .ok a, .ok b => decidable_of_iff (a = b) (by simp)

/-- Lexicographic comparison of character lists by code point: exactly Python's
string comparison, and an executable decision procedure for `String`'s `≤`. -/
def charListLE : List Char → List Char → Bool
  | [], _ => true
  | _ :: _, [] => false
  | a :: as, b :: bs =>
    if a < b then true
    else if b < a then false
    else charListLE as bs

theorem charListLE_iff (as bs : List Char) :
    charListLE as bs = true ↔ ¬ List.Lex (· < ·) bs as := by
  induction as generalizing bs with
  | nil =>
    cases bs <;> simp [charListLE]
  | cons a as ih =>
    cases bs with
    | nil =>
      simp only [charListLE, Bool.false_eq_true, false_iff, not_not]
      exact List.Lex.nil
    | cons b bs =>
      simp only [charListLE]
      rcases lt_trichotomy a b with h | h | h
      · rw [if_pos h]
        simp only [true_iff]
        intro hlex
        cases hlex with
        | cons h' => exact absurd h (lt_irrefl a)
        | rel h' => exact absurd (h.trans h') (lt_irrefl a)
      · subst h
        rw [if_neg (lt_irrefl a), if_neg (lt_irrefl a), ih bs]
        constructor
        · intro hn hlex
          cases hlex with
          | cons h' => exact hn h'
          | rel h' => exact absurd h' (lt_irrefl a)
        · intro hn hlex
          exact hn (List.Lex.cons hlex)
      · rw [if_neg (lt_asymm h), if_pos h]
        simp only [Bool.false_eq_true, false_iff, not_not]
        exact List.Lex.rel h

theorem strLEB_iff (a b : String) : charListLE a.data b.data = true ↔ a ≤ b := by
  rw [charListLE_iff, String.le_iff_toList_le, ← not_lt]
  constructor <;> exact fun h hl => h hl

/-- The ordering used by Python `sorted` on `props.items()`: with the distinct
keys of a dict, comparison is decided by the key alone. -/
def pairKeyLE (a b : String × PValue) : Prop := a.1 ≤ b.1

instance : DecidableRel pairKeyLE :=
  fun a b => decidable_of_iff (charListLE a.1.data b.1.data = true) (strLEB_iff a.1 b.1)

instance : IsTotal (String × PValue) pairKeyLE := ⟨fun a b => le_total a.1 b.1⟩

instance : IsTrans (String × PValue) pairKeyLE := ⟨fun _ _ _ h1 h2 => le_trans h1 h2⟩

/-- Python `sorted(props.items())` (lines 58 and 64). -/
def sortProps (ps : Props) : Props := List.insertionSort pairKeyLE ps

/-- String `≤` as a named relation carrying the executable instance. -/
def strLE (a b : String) : Prop := a ≤ b

instance : DecidableRel strLE :=
  fun a b => decidable_of_iff (charListLE a.data b.data = true) (strLEB_iff a b)

instance : IsTotal String strLE := ⟨fun a b => le_total a b⟩

instance : IsTrans String strLE := ⟨fun _ _ _ h1 h2 => le_trans h1 h2⟩

instance : IsAntisymm String strLE := ⟨fun _ _ h1 h2 => le_antisymm h1 h2⟩

/-- Python `sorted` on a list of field names. -/
def sortedFieldNames (fields : List String) : List String :=
  List.insertionSort strLE fields

/-- One `field_defs` entry: the list `[k, "TEXT", k.replace('_', ' '), 256]`
of line 61. -/
abbrev FieldDef := String × String × String × Nat

/-- Python `k.replace('_', ' ')`: with a single-character pattern and
replacement, replacing every occurrence is exactly a character map. -/
def underscoreToSpace (k : String) : String :=
  ⟨k.data.map (fun c => if c = '_' then ' ' else c)⟩

/-- Builds the schema row of line 61 for one field name. -/
def mkFieldDef (k : String) : FieldDef := (k, "TEXT", underscoreToSpace k, 256)

/-- The first loop of `build_schema` (lines 45-50): accumulate every property
key into `fields`, first-seen order, no duplicates; `props.items()` on the
`None` of a missing/null `properties` member raises `AttributeError`. -/
def collectStep (fields : List String) (i : Feature) : Except PyErr (List String) :=
  match i.properties with
  | none => .error .attributeError
  | some props =>
    .ok (props.foldl (fun fs kv => if kv.1 ∈ fs then fs else fs ++ [kv.1]) fields)

def collectFields (feats : List Feature) : Except PyErr (List String) :=
  feats.foldlM collectStep []

/-- Lines 55-57: `for f in fields: if f not in props.keys(): props[f] = ''` —
missing fields are appended (in `fields` order) with an empty-string value.
This writes through to the feature's own dict. -/
def backfill (props : Props) (fields : List String) : Props :=
  fields.foldl (fun ps f =>
    if f ∈ ps.map Prod.fst then ps else ps ++ [(f, PValue.str "")]) props

/-- The `field_defs` accumulation loop of lines 60-63, for one feature's
(sorted) properties. -/
def addDefs (fds : List FieldDef) (props : Props) : List FieldDef :=
  props.foldl (fun fds kv =>
    let schema_row := mkFieldDef kv.1
    if schema_row ∈ fds then fds else fds ++ [schema_row]) fds

/-- The state threaded through the second loop of `build_schema`: the four
output lists plus the features as mutated so far by the backfill. -/
structure Pass2Acc where
  field_defs : List FieldDef
  point_rows : List Row
  line_rows : List Row
  polygon_rows : List Row
  processed : List Feature
deriving DecidableEq, Repr

/-- One iteration of the second loop of `build_schema` (lines 52-80).
`i['geometry']` / `i['properties']` raise `KeyError` when absent; line 58
rebinds only the local `props`, so the feature keeps insertion order with the
backfilled keys appended; `parsed_geom['type']` on the `False` returned by a
failed `parse_geometry` raises `TypeError`. -/
def pass2Step (fields : List String) (acc : Pass2Acc) (i : Feature) : Except PyErr Pass2Acc :=
  match i.geometry with
  | none => .error .keyError
  | some geom =>
    match i.properties with
    | none => .error .keyError
    | some props0 =>
      let props := sortProps (backfill props0 fields)
      let field_defs := addDefs acc.field_defs props
      let row0 := (sortProps props).map (fun kv => Cell.text kv.2.pystr)
      match parse_geometry geom with
      | none => .error .typeError
      | some parsed =>
        let row := Cell.geom parsed.esri_geom :: row0
        let i2 : Feature := { i with properties := some (backfill props0 fields) }
        if parsed.type = "POINT" then
          .ok { acc with field_defs := field_defs,
                         point_rows := acc.point_rows ++ [row],
                         processed := acc.processed ++ [i2] }
        else if parsed.type = "POLYLINE" then
          .ok { acc with field_defs := field_defs,
                         line_rows := acc.line_rows ++ [row],
                         processed := acc.processed ++ [i2] }
        else
          .ok { acc with field_defs := field_defs,
                         polygon_rows := acc.polygon_rows ++ [row],
                         processed := acc.processed ++ [i2] }

/-- The dictionary returned by `build_schema` (lines 82-86), with the three
row buckets flattened into named fields. -/
structure SchemaResult where
  fields : List String
  field_defs : List FieldDef
  point_rows : List Row
  line_rows : List Row
  polygon_rows : List Row
deriving DecidableEq, Repr

/-- `GeoJSONUtils.build_schema` (lines 33-86).  Besides the returned
dictionary, the second component of the result is the feature collection as
the call leaves it: the backfill of lines 55-57 mutates the caller's features
in place. -/
def build_schema (fc : FC) : Except PyErr (SchemaResult × FC) := do
  let fields ← collectFields fc.features
  let acc ← fc.features.foldlM (pass2Step fields) ⟨[], [], [], [], []⟩
  return (⟨fields, acc.field_defs, acc.point_rows, acc.line_rows, acc.polygon_rows⟩,
          { fc with features := acc.processed })

/-- `GeoJSONUtils.merge_geojson` (lines 120-137), after `json.load` has turned
each input file into its FeatureCollection (each load yields a fresh object, so
listing one file twice yields two independent collections).  `gj_list[0]` on an
empty list raises `IndexError`. -/
def merge_geojson (gj_list : List FC) : Except PyErr FC :=
  match gj_list with
  | [] => .error .indexError
  | base_gj :: rest =>
    .ok (rest.foldl (fun base feat =>
      { base with features := feat.features.foldl (fun fs f => fs ++ [f]) base.features })
      base_gj)

/-! ### Derived notions used to state the claims -/

/-- Fold a list of keys into an accumulator, keeping only first occurrences:
the dedup discipline of the first loop of `build_schema`. -/
def dedupInto (acc l : List String) : List String :=
  l.foldl (fun a k => if k ∈ a then a else a ++ [k]) acc

/-- The union of a key sequence, deduplicated, in first-seen order. -/
def dedupFirstSeen (l : List String) : List String := dedupInto [] l

/-- The property keys of one feature, in their own insertion order. -/
def featKeys (ft : Feature) : List String := (ft.properties.getD []).map Prod.fst

/-- All property keys of a collection, feature by feature, in order. -/
def allKeys (fc : FC) : List String := (fc.features.map featKeys).flatten

/-- Python `props[k]` with a default: the first binding of `k` wins, as in a
dict rendered as an association list. -/
def lookupD (ps : Props) (k : String) (d : PValue) : PValue :=
  match ps.find? (fun kv => kv.1 == k) with
  | some kv => kv.2
  | none => d

/-- The geometry-category token (`POINT`/`POLYLINE`/`POLYGON`) that
`parse_geometry` assigns to a feature, when it assigns one. -/
def typeTok (ft : Feature) : Option String :=
  match ft.geometry with
  | some g => (parse_geometry g).map ParsedGeom.type
  | none => none

/-- The raw GeoJSON geometry type discriminant of a feature. -/
def gjType (ft : Feature) : Option String :=
  match ft.geometry with
  | some g => g.gtype
  | none => none

/-- The row the second loop of `build_schema` builds for one feature
(empty-list junk value in the unreachable failure cases). -/
def rowFn (fields : List String) (ft : Feature) : Row :=
  match ft.geometry, ft.properties with
  | some g, some ps =>
    match parse_geometry g with
    | some pg =>
      Cell.geom pg.esri_geom ::
        (sortProps (sortProps (backfill ps fields))).map (fun kv => Cell.text kv.2.pystr)
    | none => []
  | _, _ => []

/-- A feature as the backfill of lines 55-57 leaves it. -/
def mutFeat (fields : List String) (ft : Feature) : Feature :=
  { ft with properties := ft.properties.map (fun ps => backfill ps fields) }

/-- The per-feature success condition of the second loop: a `properties`
member, a `geometry` member, and a geometry that `parse_geometry` accepts. -/
def featOK (ft : Feature) : Bool :=
  ft.properties.isSome &&
    (match ft.geometry with
     | some g => (parse_geometry g).isSome
     | none => false)

/-- Python-dict well-formedness: every present properties map has distinct
keys. -/
def wfFC (fc : FC) : Bool :=
  fc.features.all (fun ft =>
    match ft.properties with
    | some ps => decide (ps.map Prod.fst).Nodup
    | none => true)

/-! ### Basic lemmas on the list combinators -/

theorem foldl_append_singleton {α : Type} (l : List α) (init : List α) :
    l.foldl (fun acc x => acc ++ [x]) init = init ++ l := by
  induction l generalizing init with
  | nil => simp
  | cons x xs ih => simp [ih]

theorem dedupInto_append (acc a b : List String) :
    dedupInto acc (a ++ b) = dedupInto (dedupInto acc a) b := by
  simp [dedupInto]

theorem dedupInto_cons (acc : List String) (k : String) (l : List String) :
    dedupInto acc (k :: l) = dedupInto (if k ∈ acc then acc else acc ++ [k]) l := by
  simp [dedupInto]

theorem mem_dedupInto (acc l : List String) (k : String) :
    k ∈ dedupInto acc l ↔ k ∈ acc ∨ k ∈ l := by
  induction l generalizing acc with
  | nil => simp [dedupInto]
  | cons x xs ih =>
    rw [dedupInto_cons, ih]
    by_cases hx : x ∈ acc
    · rw [if_pos hx]
      constructor
      · rintro (h | h)
        · exact Or.inl h
        · exact Or.inr (List.mem_cons_of_mem x h)
      · rintro (h | h)
        · exact Or.inl h
        · rcases List.mem_cons.mp h with h | h
          · exact Or.inl (h ▸ hx)
          · exact Or.inr h
    · rw [if_neg hx]
      simp only [List.mem_append, List.mem_singleton, List.mem_cons]
      tauto

theorem nodup_dedupInto (acc l : List String) (h : acc.Nodup) :
    (dedupInto acc l).Nodup := by
  induction l generalizing acc with
  | nil => exact h
  | cons x xs ih =>
    rw [dedupInto_cons]
    by_cases hx : x ∈ acc
    · rw [if_pos hx]; exact ih acc h
    · rw [if_neg hx]
      refine ih _ ?_
      simp [List.nodup_append, h, hx]

theorem lookupD_cons_self (k : String) (v : PValue) (ps : Props) (d : PValue) :
    lookupD ((k, v) :: ps) k d = v := by
  simp [lookupD, List.find?]

theorem lookupD_cons_ne (k k' : String) (v : PValue) (ps : Props) (d : PValue)
    (h : k ≠ k') : lookupD ((k', v) :: ps) k d = lookupD ps k d := by
  simp only [lookupD, List.find?]
  rw [show ((k', v).1 == k) = false from by simp [Ne.symm h]]

theorem lookupD_not_mem (ps : Props) (k : String) (d : PValue)
    (h : k ∉ ps.map Prod.fst) : lookupD ps k d = d := by
  induction ps with
  | nil => simp [lookupD, List.find?]
  | cons kv ps ih =>
    simp only [List.map_cons, List.mem_cons, not_or] at h
    rw [show kv = (kv.1, kv.2) from rfl, lookupD_cons_ne _ _ _ _ _ h.1]
    exact ih h.2

theorem lookupD_eq_of_mem (ps : Props) (k : String) (v d : PValue)
    (hnd : (ps.map Prod.fst).Nodup) (hm : (k, v) ∈ ps) : lookupD ps k d = v := by
  induction ps with
  | nil => simp at hm
  | cons kv ps ih =>
    simp only [List.map_cons, List.nodup_cons] at hnd
    rcases List.mem_cons.mp hm with h | h
    · rw [← h, show ((k, v) : String × PValue) = (k, v) from rfl, lookupD_cons_self]
    · have hk : k ≠ kv.1 := by
        intro he
        exact hnd.1 (he ▸ List.mem_map_of_mem Prod.fst h)
      rw [show kv = (kv.1, kv.2) from rfl, lookupD_cons_ne _ _ _ _ _ hk]
      exact ih hnd.2 h

theorem lookupD_append_left (ps qs : Props) (k : String) (d : PValue)
    (h : k ∈ ps.map Prod.fst) : lookupD (ps ++ qs) k d = lookupD ps k d := by
  rcases List.mem_map.mp h with ⟨kv, hkv, hk⟩
  have : (List.find? (fun kv => kv.1 == k) ps).isSome := by
    rw [List.find?_isSome]
    exact ⟨kv, hkv, by simp [hk]⟩
  rcases Option.isSome_iff_exists.mp this with ⟨w, hw⟩
  simp [lookupD, List.find?_append, hw]

theorem lookupD_append_right (ps qs : Props) (k : String) (d : PValue)
    (h : k ∉ ps.map Prod.fst) : lookupD (ps ++ qs) k d = lookupD qs k d := by
  have : List.find? (fun kv => kv.1 == k) ps = none := by
    rw [List.find?_eq_none]
    intro kv hkv
    simp only [beq_iff_eq]
    intro he
    exact h (he ▸ List.mem_map_of_mem Prod.fst hkv)
  simp [lookupD, List.find?_append, this]

/-! ### The backfill of lines 55-57 -/

theorem backfill_eq (ps : Props) (fields : List String) (h : fields.Nodup) :
    backfill ps fields =
      ps ++ (fields.filter (fun f => decide (f ∉ ps.map Prod.fst))).map
        (fun f => (f, PValue.str "")) := by
  induction fields generalizing ps with
  | nil => simp [backfill]
  | cons f fs ih =>
    rw [List.nodup_cons] at h
    have hstep : backfill ps (f :: fs) =
        backfill (if f ∈ ps.map Prod.fst then ps else ps ++ [(f, PValue.str "")]) fs := rfl
    by_cases hf : f ∈ ps.map Prod.fst
    · rw [hstep, if_pos hf, ih _ h.2, List.filter_cons_of_neg (by simp [hf])]
    · rw [hstep, if_neg hf, ih _ h.2, List.filter_cons_of_pos (by simp [hf]), List.map_cons]
      have hcg : ∀ g ∈ fs,
          (decide (g ∉ (ps ++ [(f, PValue.str "")]).map Prod.fst) : Bool) =
            decide (g ∉ ps.map Prod.fst) := by
        intro g hg
        have hgf : g ≠ f := fun he => h.1 (he ▸ hg)
        simp [List.map_append, hgf]
      rw [List.filter_congr hcg, List.append_assoc]
      rfl

theorem keys_backfill (ps : Props) (fields : List String) (h : fields.Nodup) :
    (backfill ps fields).map Prod.fst =
      ps.map Prod.fst ++ fields.filter (fun f => decide (f ∉ ps.map Prod.fst)) := by
  rw [backfill_eq _ _ h, List.map_append, List.map_map]
  simp only [Function.comp_def]
  rw [List.map_id']

theorem mem_keys_backfill (ps : Props) (fields : List String) (h : fields.Nodup)
    (k : String) :
    k ∈ (backfill ps fields).map Prod.fst ↔ k ∈ ps.map Prod.fst ∨ k ∈ fields := by
  rw [keys_backfill _ _ h, List.mem_append, List.mem_filter]
  by_cases hk : k ∈ ps.map Prod.fst <;> simp [hk]

theorem nodup_keys_backfill (ps : Props) (fields : List String)
    (hps : (ps.map Prod.fst).Nodup) (h : fields.Nodup) :
    ((backfill ps fields).map Prod.fst).Nodup := by
  rw [keys_backfill _ _ h, List.nodup_append]
  refine ⟨hps, h.filter _, ?_⟩
  intro k hk hk2
  rcases List.mem_filter.mp hk2 with ⟨_, hdec⟩
  exact (of_decide_eq_true hdec) hk

theorem lookupD_backfill (ps : Props) (fields : List String) (h : fields.Nodup)
    (k : String) :
    lookupD (backfill ps fields) k (PValue.str "") = lookupD ps k (PValue.str "") := by
  rw [backfill_eq _ _ h]
  by_cases hk : k ∈ ps.map Prod.fst
  · exact lookupD_append_left _ _ _ _ hk
  · rw [lookupD_append_right _ _ _ _ hk, lookupD_not_mem _ _ _ hk]
    by_cases hkf : k ∈ ((fields.filter (fun f => decide (f ∉ ps.map Prod.fst))).map
        (fun f => (f, PValue.str ""))).map Prod.fst
    · rcases List.mem_map.mp hkf with ⟨kv, hkv, hfst⟩
      rcases List.mem_map.mp hkv with ⟨f, _, hfv⟩
      have : kv = (k, PValue.str "") := by rw [← hfv] at hfst ⊢; simp [← hfst]
      exact lookupD_eq_of_mem _ _ _ _ (by
        rw [List.map_map]
        simp only [Function.comp_def]
        rw [List.map_id']
        exact h.filter _) (this ▸ hkv)
    · exact lookupD_not_mem _ _ _ hkf

/-! ### Python sorting -/

theorem sortProps_idem (ps : Props) : sortProps (sortProps ps) = sortProps ps :=
  List.Sorted.insertionSort_eq (List.sorted_insertionSort pairKeyLE ps)

theorem keys_sortProps (ps : Props) :
    (sortProps ps).map Prod.fst = sortedFieldNames (ps.map Prod.fst) := by
  refine List.eq_of_perm_of_sorted (r := strLE) ?_ ?_ ?_
  · exact ((List.perm_insertionSort pairKeyLE ps).map Prod.fst).trans
      (List.perm_insertionSort strLE _).symm
  · exact List.Pairwise.map Prod.fst (fun a b hab => hab)
      (List.sorted_insertionSort pairKeyLE ps)
  · exact List.sorted_insertionSort strLE _

theorem length_sortedFieldNames (l : List String) :
    (sortedFieldNames l).length = l.length :=
  (List.perm_insertionSort strLE l).length_eq

theorem mem_sortedFieldNames (l : List String) (k : String) :
    k ∈ sortedFieldNames l ↔ k ∈ l :=
  (List.perm_insertionSort strLE l).mem_iff

theorem nodup_sortedFieldNames (l : List String) (h : l.Nodup) :
    (sortedFieldNames l).Nodup :=
  ((List.perm_insertionSort strLE l).nodup_iff).mpr h

theorem sortedFieldNames_eq_of_set_eq (l₁ l₂ : List String)
    (h₁ : l₁.Nodup) (h₂ : l₂.Nodup) (h : ∀ k, k ∈ l₁ ↔ k ∈ l₂) :
    sortedFieldNames l₁ = sortedFieldNames l₂ := by
  refine List.eq_of_perm_of_sorted (r := strLE) ?_ ?_ ?_
  · exact (List.perm_insertionSort strLE l₁).trans
      (((List.perm_ext_iff_of_nodup h₁ h₂).mpr h).trans
        (List.perm_insertionSort strLE l₂).symm)
  · exact List.sorted_insertionSort strLE l₁
  · exact List.sorted_insertionSort strLE l₂

theorem sortProps_eq_map (ps : Props) (d : PValue) (h : (ps.map Prod.fst).Nodup) :
    sortProps ps = (sortedFieldNames (ps.map Prod.fst)).map (fun k => (k, lookupD ps k d)) := by
  rw [← keys_sortProps, List.map_map]
  have hcg : ∀ kv ∈ sortProps ps, ((fun k => (k, lookupD ps k d)) ∘ Prod.fst) kv = kv := by
    intro kv hm
    have hmem : kv ∈ ps := (List.perm_insertionSort pairKeyLE ps).subset hm
    have hl : lookupD ps kv.1 d = kv.2 :=
      lookupD_eq_of_mem ps kv.1 kv.2 d h hmem
    simp only [Function.comp]
    rw [hl]
  rw [List.map_congr_left hcg]
  simp

/-! ### The first loop of build_schema -/

theorem exceptOkBind {α β : Type} (x : α) (f : α → Except PyErr β) :
    (Except.ok x >>= f) = f x := rfl

theorem exceptErrorBind {α β : Type} (e : PyErr) (f : α → Except PyErr β) :
    ((Except.error e : Except PyErr α) >>= f) = .error e := rfl

theorem props_foldl_eq_dedupInto (props : Props) (acc : List String) :
    props.foldl (fun fs kv => if kv.1 ∈ fs then fs else fs ++ [kv.1]) acc =
      dedupInto acc (props.map Prod.fst) := by
  rw [dedupInto, List.foldl_map]

theorem collectStep_some (ft : Feature) (ps : Props) (acc : List String)
    (h : ft.properties = some ps) :
    collectStep acc ft = .ok (dedupInto acc (ps.map Prod.fst)) := by
  simp [collectStep, h, props_foldl_eq_dedupInto]

theorem collectStep_none (ft : Feature) (acc : List String)
    (h : ft.properties = none) :
    collectStep acc ft = .error .attributeError := by
  simp [collectStep, h]

theorem collectFields_fold_ok (feats : List Feature) (acc v : List String)
    (h : feats.foldlM collectStep acc = .ok v) :
    (∀ ft ∈ feats, ft.properties.isSome) ∧
      v = dedupInto acc (feats.map featKeys).flatten := by
  induction feats generalizing acc with
  | nil =>
    rw [List.foldlM_nil] at h
    have hv : acc = v := by
      rw [show (pure acc : Except PyErr (List String)) = .ok acc from rfl] at h
      exact Except.ok.inj h
    refine ⟨by simp, ?_⟩
    simp [← hv, dedupInto]
  | cons ft feats ih =>
    rw [List.foldlM_cons] at h
    cases hp : ft.properties with
    | none =>
      rw [collectStep_none ft acc hp, exceptErrorBind] at h
      simp at h
    | some ps =>
      rw [collectStep_some ft ps acc hp, exceptOkBind] at h
      obtain ⟨h1, h2⟩ := ih _ h
      refine ⟨?_, ?_⟩
      · intro g hg
        rcases List.mem_cons.mp hg with he | hg2
        · rw [he, hp]; rfl
        · exact h1 g hg2
      · rw [h2, List.map_cons, List.flatten_cons, dedupInto_append]
        simp [featKeys, hp]

theorem collectFields_fold_of_some (feats : List Feature) (acc : List String)
    (h : ∀ ft ∈ feats, ft.properties.isSome) :
    feats.foldlM collectStep acc = .ok (dedupInto acc (feats.map featKeys).flatten) := by
  induction feats generalizing acc with
  | nil =>
    rw [List.foldlM_nil]
    simp [dedupInto]
    rfl
  | cons ft feats ih =>
    rcases Option.isSome_iff_exists.mp (h ft (List.mem_cons_self ft feats)) with ⟨ps, hp⟩
    rw [List.foldlM_cons, collectStep_some ft ps acc hp, exceptOkBind,
      ih _ (fun g hg => h g (List.mem_cons_of_mem _ hg))]
    rw [List.map_cons, List.flatten_cons, dedupInto_append]
    simp [featKeys, hp]

theorem collectFields_ok (feats : List Feature) (v : List String)
    (h : collectFields feats = .ok v) :
    (∀ ft ∈ feats, ft.properties.isSome) ∧ v = dedupFirstSeen (feats.map featKeys).flatten :=
  collectFields_fold_ok feats [] v h

theorem collectFields_of_some (feats : List Feature)
    (h : ∀ ft ∈ feats, ft.properties.isSome) :
    collectFields feats = .ok (dedupFirstSeen (feats.map featKeys).flatten) :=
  collectFields_fold_of_some feats [] h

theorem nodup_dedupFirstSeen (l : List String) : (dedupFirstSeen l).Nodup :=
  nodup_dedupInto [] l List.nodup_nil

theorem mem_dedupFirstSeen (l : List String) (k : String) :
    k ∈ dedupFirstSeen l ↔ k ∈ l := by
  rw [dedupFirstSeen, mem_dedupInto]
  simp

/-! ### The geometry classifier -/

theorem parse_geometry_spec (g : Geometry) (pg : ParsedGeom)
    (h : parse_geometry g = some pg) :
    pg.esri_geom = ⟨g⟩ ∧ g.hasCoords = true ∧ ∃ t, g.gtype = some t ∧
      ((t = "Point" ∧ pg.type = "POINT") ∨
       ((t = "LineString" ∨ t = "MultiLineString") ∧ pg.type = "POLYLINE") ∨
       ((t = "Polygon" ∨ t = "MultiPolygon") ∧ pg.type = "POLYGON")) := by
  cases hs : asShape g with
  | error e =>
    unfold parse_geometry at h
    rw [hs] at h
    exact absurd h (by simp)
  | ok eg =>
    have hshape : eg = ⟨g⟩ ∧ g.hasCoords = true ∧ g.gtype.isSome = true := by
      unfold asShape at hs
      by_cases hc : (g.gtype.isSome && g.hasCoords) = true
      · rw [if_pos hc] at hs
        have hc2 : g.gtype.isSome = true ∧ g.hasCoords = true := by simpa using hc
        exact ⟨(Except.ok.inj hs).symm, hc2.2, hc2.1⟩
      · rw [if_neg hc] at hs
        exact absurd hs (by simp)
    unfold parse_geometry at h
    rw [hs] at h
    dsimp only at h
    cases ht : g.gtype with
    | none => rw [ht] at hshape; exact absurd hshape.2.2 (by simp)
    | some t =>
      rw [ht] at h
      dsimp only at h
      split_ifs at h with h1 h2 h3
      · have hpg := Option.some.inj h
        exact ⟨by rw [← hpg, hshape.1], hshape.2.1, t, rfl, Or.inl ⟨h1, by rw [← hpg]⟩⟩
      · have hpg := Option.some.inj h
        exact ⟨by rw [← hpg, hshape.1], hshape.2.1, t, rfl, Or.inr (Or.inl ⟨h2, by rw [← hpg]⟩)⟩
      · have hpg := Option.some.inj h
        exact ⟨by rw [← hpg, hshape.1], hshape.2.1, t, rfl, Or.inr (Or.inr ⟨h3, by rw [← hpg]⟩)⟩

theorem parse_geometry_type_cases (g : Geometry) (pg : ParsedGeom)
    (h : parse_geometry g = some pg) :
    pg.type = "POINT" ∨ pg.type = "POLYLINE" ∨ pg.type = "POLYGON" := by
  rcases (parse_geometry_spec g pg h).2.2 with ⟨t, _, hc | hc | hc⟩
  · exact Or.inl hc.2
  · exact Or.inr (Or.inl hc.2)
  · exact Or.inr (Or.inr hc.2)

theorem parse_geometry_unrecognized (g : Geometry) (t : String)
    (ht : g.gtype = some t)
    (hbad : t ∉ ["Point", "LineString", "MultiLineString", "Polygon", "MultiPolygon"]) :
    parse_geometry g = none := by
  cases hp : parse_geometry g with
  | none => rfl
  | some pg =>
    rcases (parse_geometry_spec g pg hp).2.2 with ⟨t2, ht2, hc⟩
    rw [ht] at ht2
    have het : t = t2 := Option.some.inj ht2
    exfalso
    apply hbad
    rw [het]
    rcases hc with hc | hc | hc
    · simp [hc.1]
    · rcases hc.1 with h1 | h1 <;> simp [h1]
    · rcases hc.1 with h1 | h1 <;> simp [h1]

/-! ### The second loop of build_schema, one step -/

theorem pass2Step_point (fields : List String) (acc : Pass2Acc) (i : Feature)
    (g : Geometry) (ps : Props) (pg : ParsedGeom)
    (hg : i.geometry = some g) (hp : i.properties = some ps)
    (hpg : parse_geometry g = some pg) (htok : pg.type = "POINT") :
    pass2Step fields acc i = .ok
      ⟨addDefs acc.field_defs (sortProps (backfill ps fields)),
       acc.point_rows ++ [rowFn fields i],
       acc.line_rows, acc.polygon_rows,
       acc.processed ++ [mutFeat fields i]⟩ := by
  simp [pass2Step, hg, hp, hpg, htok, rowFn, mutFeat]

theorem pass2Step_polyline (fields : List String) (acc : Pass2Acc) (i : Feature)
    (g : Geometry) (ps : Props) (pg : ParsedGeom)
    (hg : i.geometry = some g) (hp : i.properties = some ps)
    (hpg : parse_geometry g = some pg) (htok : pg.type = "POLYLINE") :
    pass2Step fields acc i = .ok
      ⟨addDefs acc.field_defs (sortProps (backfill ps fields)),
       acc.point_rows,
       acc.line_rows ++ [rowFn fields i],
       acc.polygon_rows,
       acc.processed ++ [mutFeat fields i]⟩ := by
  simp [pass2Step, hg, hp, hpg, htok, rowFn, mutFeat]

theorem pass2Step_polygon (fields : List String) (acc : Pass2Acc) (i : Feature)
    (g : Geometry) (ps : Props) (pg : ParsedGeom)
    (hg : i.geometry = some g) (hp : i.properties = some ps)
    (hpg : parse_geometry g = some pg)
    (hnp : pg.type ≠ "POINT") (hnl : pg.type ≠ "POLYLINE") :
    pass2Step fields acc i = .ok
      ⟨addDefs acc.field_defs (sortProps (backfill ps fields)),
       acc.point_rows, acc.line_rows,
       acc.polygon_rows ++ [rowFn fields i],
       acc.processed ++ [mutFeat fields i]⟩ := by
  simp [pass2Step, hg, hp, hpg, hnp, hnl, rowFn, mutFeat]

theorem pass2Step_err (fields : List String) (acc : Pass2Acc) (ft : Feature)
    (hbad : featOK ft = false) :
    ∃ e, pass2Step fields acc ft = .error e := by
  cases hg : ft.geometry with
  | none => exact ⟨.keyError, by simp [pass2Step, hg]⟩
  | some g =>
    cases hp : ft.properties with
    | none => exact ⟨.keyError, by simp [pass2Step, hg, hp]⟩
    | some ps =>
      have hparse : parse_geometry g = none := by
        unfold featOK at hbad
        rw [hg, hp] at hbad
        simpa using hbad
      exact ⟨.typeError, by simp [pass2Step, hg, hp, hparse]⟩

/-! ### The second loop of build_schema, whole fold -/

theorem typeTok_eq (ft : Feature) (g : Geometry) (pg : ParsedGeom)
    (hg : ft.geometry = some g) (hpg : parse_geometry g = some pg) :
    typeTok ft = some pg.type := by
  simp [typeTok, hg, hpg]

theorem featOK_elim (ft : Feature) (hok : featOK ft = true) :
    ∃ g ps pg, ft.geometry = some g ∧ ft.properties = some ps ∧
      parse_geometry g = some pg := by
  unfold featOK at hok
  cases hg : ft.geometry with
  | none => rw [hg] at hok; simp at hok
  | some g =>
    cases hp : ft.properties with
    | none => rw [hp] at hok; simp at hok
    | some ps =>
      rw [hg, hp] at hok
      simp only [Option.isSome_some, Bool.true_and] at hok
      rcases Option.isSome_iff_exists.mp hok with ⟨pg, hpg⟩
      exact ⟨g, ps, pg, rfl, rfl, hpg⟩

theorem pass2_fold_ok (fields : List String) (feats : List Feature) (acc : Pass2Acc)
    (hok : ∀ ft ∈ feats, featOK ft = true) :
    feats.foldlM (pass2Step fields) acc = .ok
      ⟨feats.foldl (fun fds ft =>
          addDefs fds (sortProps (backfill (ft.properties.getD []) fields))) acc.field_defs,
       acc.point_rows ++ (feats.filter (fun ft => typeTok ft == some "POINT")).map (rowFn fields),
       acc.line_rows ++ (feats.filter (fun ft => typeTok ft == some "POLYLINE")).map (rowFn fields),
       acc.polygon_rows ++ (feats.filter (fun ft => typeTok ft == some "POLYGON")).map (rowFn fields),
       acc.processed ++ feats.map (mutFeat fields)⟩ := by
  induction feats generalizing acc with
  | nil => simp [List.foldlM_nil]; rfl
  | cons ft feats ih =>
    obtain ⟨g, ps, pg, hg, hp, hpg⟩ := featOK_elim ft (hok ft (List.mem_cons_self ft feats))
    have htt := typeTok_eq ft g pg hg hpg
    have ihr := fun a => ih a (fun x hx => hok x (List.mem_cons_of_mem ft hx))
    rw [List.foldlM_cons]
    rcases parse_geometry_type_cases g pg hpg with htok | htok | htok
    · rw [pass2Step_point fields acc ft g ps pg hg hp hpg htok, exceptOkBind, ihr _]
      rw [List.filter_cons_of_pos (by rw [htt, htok]; rfl),
        List.filter_cons_of_neg (by rw [htt, htok]; simp),
        List.filter_cons_of_neg (by rw [htt, htok]; simp)]
      simp [hp, List.append_assoc]
    · rw [pass2Step_polyline fields acc ft g ps pg hg hp hpg htok, exceptOkBind, ihr _]
      rw [List.filter_cons_of_neg (by rw [htt, htok]; simp),
        List.filter_cons_of_pos (by rw [htt, htok]; rfl),
        List.filter_cons_of_neg (by rw [htt, htok]; simp)]
      simp [hp, List.append_assoc]
    · rw [pass2Step_polygon fields acc ft g ps pg hg hp hpg
        (by rw [htok]; simp) (by rw [htok]; simp), exceptOkBind, ihr _]
      rw [List.filter_cons_of_neg (by rw [htt, htok]; simp),
        List.filter_cons_of_neg (by rw [htt, htok]; simp),
        List.filter_cons_of_pos (by rw [htt, htok]; rfl)]
      simp [hp, List.append_assoc]

theorem pass2_fold_err (fields : List String) (feats : List Feature)
    (ft : Feature) (hmem : ft ∈ feats) (hbad : featOK ft = false) :
    ∀ (acc : Pass2Acc) (res : Pass2Acc),
      feats.foldlM (pass2Step fields) acc ≠ .ok res := by
  induction feats with
  | nil => simp at hmem
  | cons x feats ih =>
    intro acc res h
    rw [List.foldlM_cons] at h
    rcases List.mem_cons.mp hmem with he | hmem2
    · subst he
      obtain ⟨e, he2⟩ := pass2Step_err fields acc ft hbad
      rw [he2, exceptErrorBind] at h
      exact absurd h (by simp)
    · cases hs : pass2Step fields acc x with
      | error e =>
        rw [hs, exceptErrorBind] at h
        exact absurd h (by simp)
      | ok acc2 =>
        rw [hs, exceptOkBind] at h
        exact ih hmem2 acc2 res h

theorem pass2_fold_all_ok (fields : List String) (feats : List Feature)
    (acc res : Pass2Acc) (h : feats.foldlM (pass2Step fields) acc = .ok res) :
    ∀ ft ∈ feats, featOK ft = true := by
  intro ft hmem
  by_contra hbad
  exact pass2_fold_err fields feats ft hmem (Bool.not_eq_true _ ▸ hbad) acc res h

/-! ### build_schema, assembled -/

theorem build_schema_ok_elim (fc : FC) (res : SchemaResult) (fc' : FC)
    (h : build_schema fc = .ok (res, fc')) :
    (∀ ft ∈ fc.features, featOK ft = true) ∧
    res.fields = dedupFirstSeen (allKeys fc) ∧
    res.field_defs = fc.features.foldl (fun fds ft =>
        addDefs fds (sortProps (backfill (ft.properties.getD []) res.fields))) [] ∧
    res.point_rows =
      (fc.features.filter (fun ft => typeTok ft == some "POINT")).map (rowFn res.fields) ∧
    res.line_rows =
      (fc.features.filter (fun ft => typeTok ft == some "POLYLINE")).map (rowFn res.fields) ∧
    res.polygon_rows =
      (fc.features.filter (fun ft => typeTok ft == some "POLYGON")).map (rowFn res.fields) ∧
    fc'.meta = fc.meta ∧
    fc'.features = fc.features.map (mutFeat res.fields) := by
  unfold build_schema at h
  cases hcf : collectFields fc.features with
  | error e =>
    rw [hcf, exceptErrorBind] at h
    exact absurd h (by simp)
  | ok fields =>
    rw [hcf, exceptOkBind] at h
    cases hfold : fc.features.foldlM (pass2Step fields) ⟨[], [], [], [], []⟩ with
    | error e =>
      rw [hfold, exceptErrorBind] at h
      exact absurd h (by simp)
    | ok acc =>
      rw [hfold, exceptOkBind] at h
      have hpair : ((⟨fields, acc.field_defs, acc.point_rows, acc.line_rows,
          acc.polygon_rows⟩ : SchemaResult),
          ({ fc with features := acc.processed } : FC)) = (res, fc') :=
        Except.ok.inj h
      have hres : res = ⟨fields, acc.field_defs, acc.point_rows, acc.line_rows,
          acc.polygon_rows⟩ := (congrArg Prod.fst hpair).symm
      have hfc2 : fc' = { fc with features := acc.processed } :=
        (congrArg Prod.snd hpair).symm
      have hall := pass2_fold_all_ok fields fc.features _ acc hfold
      obtain ⟨hsome, hfieldsval⟩ := collectFields_ok fc.features fields hcf
      have hexp := pass2_fold_ok fields fc.features ⟨[], [], [], [], []⟩ hall
      rw [hfold] at hexp
      have hacc := Except.ok.inj hexp
      refine ⟨hall, ?_, ?_, ?_, ?_, ?_, ?_, ?_⟩
      · rw [hres]; exact hfieldsval
      · rw [hres, hacc]
      · rw [hres, hacc]; simp
      · rw [hres, hacc]; simp
      · rw [hres, hacc]; simp
      · rw [hfc2]
      · rw [hfc2, hres, hacc]; simp

theorem build_schema_of_featOK (fc : FC) (hok : ∀ ft ∈ fc.features, featOK ft = true) :
    ∃ res fc', build_schema fc = .ok (res, fc') := by
  have hsome : ∀ ft ∈ fc.features, ft.properties.isSome := by
    intro ft hm
    obtain ⟨g, ps, pg, hg, hp, _⟩ := featOK_elim ft (hok ft hm)
    rw [hp]; rfl
  unfold build_schema
  rw [collectFields_of_some fc.features hsome, exceptOkBind,
    pass2_fold_ok _ fc.features _ hok, exceptOkBind]
  exact ⟨_, _, rfl⟩

/-! ### Row and field_defs shapes under the unified field set -/

theorem mem_fields_of_key (fc : FC) (ft : Feature) (ps : Props) (k : String)
    (hm : ft ∈ fc.features) (hp : ft.properties = some ps)
    (hk : k ∈ ps.map Prod.fst) : k ∈ dedupFirstSeen (allKeys fc) := by
  rw [mem_dedupFirstSeen, allKeys, List.mem_flatten]
  exact ⟨featKeys ft, List.mem_map_of_mem featKeys hm, by simp [featKeys, hp, hk]⟩

theorem nodup_fields (fc : FC) : (dedupFirstSeen (allKeys fc)).Nodup :=
  nodup_dedupFirstSeen _

theorem sortedFieldNames_backfill (ps : Props) (fields : List String)
    (hnd : (ps.map Prod.fst).Nodup) (hfnd : fields.Nodup)
    (hsub : ∀ k ∈ ps.map Prod.fst, k ∈ fields) :
    sortedFieldNames ((backfill ps fields).map Prod.fst) = sortedFieldNames fields := by
  apply sortedFieldNames_eq_of_set_eq
  · exact nodup_keys_backfill ps fields hnd hfnd
  · exact hfnd
  · intro k
    rw [mem_keys_backfill ps fields hfnd k]
    constructor
    · rintro (h | h)
      · exact hsub k h
      · exact h
    · exact Or.inr

theorem sortProps_backfill_eq (ps : Props) (fields : List String)
    (hnd : (ps.map Prod.fst).Nodup) (hfnd : fields.Nodup)
    (hsub : ∀ k ∈ ps.map Prod.fst, k ∈ fields) :
    sortProps (backfill ps fields) =
      (sortedFieldNames fields).map
        (fun k => (k, lookupD ps k (PValue.str ""))) := by
  rw [sortProps_eq_map (backfill ps fields) (PValue.str "")
    (nodup_keys_backfill ps fields hnd hfnd)]
  rw [sortedFieldNames_backfill ps fields hnd hfnd hsub]
  apply List.map_congr_left
  intro k _
  rw [lookupD_backfill ps fields hfnd k]

theorem rowFn_eq (fields : List String) (ft : Feature)
    (g : Geometry) (ps : Props) (pg : ParsedGeom)
    (hg : ft.geometry = some g) (hp : ft.properties = some ps)
    (hpg : parse_geometry g = some pg)
    (hnd : (ps.map Prod.fst).Nodup) (hfnd : fields.Nodup)
    (hsub : ∀ k ∈ ps.map Prod.fst, k ∈ fields) :
    rowFn fields ft = Cell.geom pg.esri_geom ::
      (sortedFieldNames fields).map
        (fun k => Cell.text (lookupD ps k (PValue.str "")).pystr) := by
  unfold rowFn
  rw [hg, hp]
  dsimp only
  rw [hpg]
  dsimp only
  rw [sortProps_idem, sortProps_backfill_eq ps fields hnd hfnd hsub, List.map_map]
  rfl

theorem mkFieldDef_inj (a b : String) (h : mkFieldDef a = mkFieldDef b) : a = b :=
  congrArg (fun d => d.1) h

theorem addDefs_map_pairs (fds : List FieldDef) (S : List String) (v : String → PValue) :
    addDefs fds (S.map (fun k => (k, v k))) =
      S.foldl (fun fds k => if mkFieldDef k ∈ fds then fds else fds ++ [mkFieldDef k]) fds := by
  rw [addDefs, List.foldl_map]

theorem defs_foldl_eq (S : List String) (fds : List FieldDef) (h : S.Nodup) :
    S.foldl (fun fds k => if mkFieldDef k ∈ fds then fds else fds ++ [mkFieldDef k]) fds =
      fds ++ (S.filter (fun k => decide (mkFieldDef k ∉ fds))).map mkFieldDef := by
  induction S generalizing fds with
  | nil => simp
  | cons k ks ih =>
    rw [List.nodup_cons] at h
    rw [List.foldl_cons]
    by_cases hk : mkFieldDef k ∈ fds
    · rw [if_pos hk, ih _ h.2, List.filter_cons_of_neg (by simp [hk])]
    · rw [if_neg hk, ih _ h.2, List.filter_cons_of_pos (by simp [hk]), List.map_cons]
      have hcg : ∀ g ∈ ks,
          (decide (mkFieldDef g ∉ fds ++ [mkFieldDef k]) : Bool) =
            decide (mkFieldDef g ∉ fds) := by
        intro g hg
        have hgk : mkFieldDef g ≠ mkFieldDef k :=
          fun he => h.1 ((mkFieldDef_inj g k he) ▸ hg)
        simp [hgk]
      rw [List.filter_congr hcg, List.append_assoc]
      rfl

theorem defs_fold_from_nil (S : List String) (h : S.Nodup) :
    S.foldl (fun fds k => if mkFieldDef k ∈ fds then fds else fds ++ [mkFieldDef k]) [] =
      S.map mkFieldDef := by
  rw [defs_foldl_eq S [] h]
  simp

theorem defs_fold_fixed (S : List String) (h : S.Nodup) :
    S.foldl (fun fds k => if mkFieldDef k ∈ fds then fds else fds ++ [mkFieldDef k])
        (S.map mkFieldDef) = S.map mkFieldDef := by
  rw [defs_foldl_eq S _ h]
  have : S.filter (fun k => decide (mkFieldDef k ∉ S.map mkFieldDef)) = [] := by
    rw [List.filter_eq_nil_iff]
    intro k hk
    simp [List.mem_map_of_mem mkFieldDef hk]
  rw [this]
  simp

/-! ### The merger -/

theorem merge_fold (rest : List FC) (c : FC) :
    rest.foldl (fun base feat =>
      { base with features := feat.features.foldl (fun fs f => fs ++ [f]) base.features }) c
      = ⟨c.meta, c.features ++ (rest.map FC.features).flatten⟩ := by
  induction rest generalizing c with
  | nil => simp
  | cons d rest ih =>
    rw [List.foldl_cons, ih]
    simp [foldl_append_singleton, List.append_assoc]

theorem merge_geojson_cons (c : FC) (rest : List FC) :
    merge_geojson (c :: rest) = .ok ⟨c.meta, c.features ++ (rest.map FC.features).flatten⟩ := by
  unfold merge_geojson
  dsimp only
  rw [merge_fold]

/-! ### field_defs over a whole run -/

theorem wfFC_elim (fc : FC) (ft : Feature) (ps : Props)
    (hwf : wfFC fc = true) (hm : ft ∈ fc.features) (hp : ft.properties = some ps) :
    (ps.map Prod.fst).Nodup := by
  have := List.all_eq_true.mp hwf ft hm
  rw [hp] at this
  exact of_decide_eq_true this

theorem props_shape (fc : FC) (res : SchemaResult) (fc' : FC)
    (hwf : wfFC fc = true) (h : build_schema fc = .ok (res, fc')) :
    ∀ ft ∈ fc.features,
      sortProps (backfill (ft.properties.getD []) res.fields) =
        (sortedFieldNames res.fields).map
          (fun k => (k, lookupD (ft.properties.getD []) k (PValue.str ""))) := by
  obtain ⟨hall, hfields, _⟩ := build_schema_ok_elim fc res fc' h
  have hfnd : res.fields.Nodup := by
    rw [hfields]; exact nodup_dedupFirstSeen _
  intro ft hm
  obtain ⟨g, ps, pg, hg, hp, hpgg⟩ := featOK_elim ft (hall ft hm)
  rw [hp]
  simp only [Option.getD_some]
  refine sortProps_backfill_eq ps res.fields (wfFC_elim fc ft ps hwf hm hp) hfnd ?_
  intro k hk
  rw [hfields]
  exact mem_fields_of_key fc ft ps k hm hp hk

theorem foldl_addDefs_fixed (fields : List String) (feats : List Feature)
    (hfnd : fields.Nodup)
    (hshape : ∀ ft ∈ feats,
      sortProps (backfill (ft.properties.getD []) fields) =
        (sortedFieldNames fields).map
          (fun k => (k, lookupD (ft.properties.getD []) k (PValue.str "")))) :
    feats.foldl (fun fds ft => addDefs fds (sortProps (backfill (ft.properties.getD []) fields)))
      ((sortedFieldNames fields).map mkFieldDef) = (sortedFieldNames fields).map mkFieldDef := by
  induction feats with
  | nil => rfl
  | cons ft feats ih =>
    rw [List.foldl_cons, hshape ft (List.mem_cons_self ft feats), addDefs_map_pairs,
      defs_fold_fixed _ (nodup_sortedFieldNames _ hfnd)]
    exact ih (fun x hx => hshape x (List.mem_cons_of_mem ft hx))

theorem field_defs_closed_form (fc : FC) (res : SchemaResult) (fc' : FC)
    (hwf : wfFC fc = true) (h : build_schema fc = .ok (res, fc')) :
    res.field_defs = (sortedFieldNames res.fields).map mkFieldDef := by
  obtain ⟨hall, hfields, hdefs, _⟩ := build_schema_ok_elim fc res fc' h
  have hfnd : res.fields.Nodup := by
    rw [hfields]; exact nodup_dedupFirstSeen _
  have hshape := props_shape fc res fc' hwf h
  rw [hdefs]
  cases hfs : fc.features with
  | nil =>
    have hempty : res.fields = [] := by
      rw [hfields]
      simp [allKeys, hfs, dedupFirstSeen, dedupInto]
    rw [hempty]
    rfl
  | cons ft feats =>
    rw [List.foldl_cons, hshape ft (by rw [hfs]; exact List.mem_cons_self ft feats),
      addDefs_map_pairs, defs_fold_from_nil _ (nodup_sortedFieldNames _ hfnd)]
    exact foldl_addDefs_fixed res.fields feats hfnd
      (fun x hx => hshape x (by rw [hfs]; exact List.mem_cons_of_mem ft hx))

/-! ### A second run over the mutated collection -/

theorem featOK_mutFeat (fields : List String) (ft : Feature)
    (h : featOK ft = true) : featOK (mutFeat fields ft) = true := by
  obtain ⟨g, ps, pg, hg, hp, hpg⟩ := featOK_elim ft h
  simp [featOK, mutFeat, hg, hp, hpg]

theorem wfFC_mut (fc : FC) (res : SchemaResult) (fc' : FC)
    (hwf : wfFC fc = true) (h : build_schema fc = .ok (res, fc')) :
    wfFC fc' = true := by
  obtain ⟨hall, hfields, _, _, _, _, _, hfeats⟩ := build_schema_ok_elim fc res fc' h
  have hfnd : res.fields.Nodup := by
    rw [hfields]; exact nodup_dedupFirstSeen _
  rw [wfFC, List.all_eq_true]
  intro ft2 hm2
  rw [hfeats] at hm2
  rcases List.mem_map.mp hm2 with ⟨ft, hm, hft2⟩
  obtain ⟨g, ps, pg, hg, hp, hpg⟩ := featOK_elim ft (hall ft hm)
  rw [← hft2]
  simp only [mutFeat, hp, Option.map_some]
  exact decide_eq_true
    (nodup_keys_backfill ps res.fields (wfFC_elim fc ft ps hwf hm hp) hfnd)

theorem mut_keys_set (fc : FC) (res : SchemaResult) (fc' : FC)
    (h : build_schema fc = .ok (res, fc')) :
    ∀ k, k ∈ dedupFirstSeen (allKeys fc') ↔ k ∈ res.fields := by
  obtain ⟨hall, hfields, _, _, _, _, _, hfeats⟩ := build_schema_ok_elim fc res fc' h
  have hfnd : res.fields.Nodup := by
    rw [hfields]; exact nodup_dedupFirstSeen _
  intro k
  rw [mem_dedupFirstSeen, allKeys, List.mem_flatten]
  constructor
  · rintro ⟨l, hl, hkl⟩
    rcases List.mem_map.mp hl with ⟨ft2, hm2, hfeq⟩
    rw [hfeats] at hm2
    rcases List.mem_map.mp hm2 with ⟨ft, hm, hft2⟩
    obtain ⟨g, ps, pg, hg, hp, hpg⟩ := featOK_elim ft (hall ft hm)
    rw [← hfeq, ← hft2] at hkl
    simp only [featKeys, mutFeat, hp, Option.map_some, Option.getD_some] at hkl
    rcases (mem_keys_backfill ps res.fields hfnd k).mp hkl with hk | hk
    · rw [hfields]
      exact mem_fields_of_key fc ft ps k hm hp hk
    · exact hk
  · intro hk
    rw [hfields] at hk
    rcases (mem_dedupFirstSeen _ k).mp hk with hk2
    rw [allKeys, List.mem_flatten] at hk2
    rcases hk2 with ⟨l, hl, hkl⟩
    rcases List.mem_map.mp hl with ⟨ft, hm, hfeq⟩
    obtain ⟨g, ps, pg, hg, hp, hpg⟩ := featOK_elim ft (hall ft hm)
    refine ⟨featKeys (mutFeat res.fields ft), ?_, ?_⟩
    · rw [hfeats]
      exact List.mem_map_of_mem _ (List.mem_map_of_mem _ hm)
    · have hred : featKeys (mutFeat res.fields ft) = (backfill ps res.fields).map Prod.fst := by
        simp [featKeys, mutFeat, hp]
      rw [hred, mem_keys_backfill ps res.fields hfnd k]
      left
      rw [← hfeq] at hkl
      simpa [featKeys, hp] using hkl

/-! ### Concrete inputs and outputs used by witnesses and counterexamples -/

def gPoint : Geometry := ⟨some "Point", true⟩

def gLine : Geometry := ⟨some "LineString", true⟩

def gMPoly : Geometry := ⟨some "MultiPolygon", true⟩

/-- A valid GeoJSON geometry whose discriminant is outside the five the
classifier recognizes. -/
def gMPoint : Geometry := ⟨some "MultiPoint", true⟩

/-- A geometry payload missing its coordinate member: `arcpy.AsShape` raises
`KeyError` on it. -/
def gNoCoords : Geometry := ⟨some "Point", false⟩

/-- Two point features with disjoint property key sets. -/
def fcEx : FC := ⟨[("type", "FeatureCollection")],
  [⟨some gPoint, some [("name", PValue.str "A")]⟩,
   ⟨some gPoint, some [("color", PValue.str "red")]⟩]⟩

/-- What build_schema returns on `fcEx`. -/
def resEx : SchemaResult :=
  ⟨["name", "color"],
   [("color", "TEXT", "color", 256), ("name", "TEXT", "name", 256)],
   [[Cell.geom ⟨gPoint⟩, Cell.text "", Cell.text "A"],
    [Cell.geom ⟨gPoint⟩, Cell.text "red", Cell.text ""]],
   [], []⟩

/-- `fcEx` as build_schema leaves it: both features' properties were
backfilled in place. -/
def fcExMut : FC := ⟨[("type", "FeatureCollection")],
  [⟨some gPoint, some [("name", PValue.str "A"), ("color", PValue.str "")]⟩,
   ⟨some gPoint, some [("color", PValue.str "red"), ("name", PValue.str "")]⟩]⟩

/-- The first point row of `resEx`. -/
def rEx : Row := [Cell.geom ⟨gPoint⟩, Cell.text "", Cell.text "A"]

/-- One feature of each geometry category. -/
def fcMix : FC := ⟨[],
  [⟨some gLine, some [("src", PValue.str "x")]⟩,
   ⟨some gPoint, some [("src", PValue.str "y")]⟩,
   ⟨some gMPoly, some [("src", PValue.str "z")]⟩]⟩

/-- What build_schema returns on `fcMix`. -/
def resMix : SchemaResult :=
  ⟨["src"],
   [("src", "TEXT", "src", 256)],
   [[Cell.geom ⟨gPoint⟩, Cell.text "y"]],
   [[Cell.geom ⟨gLine⟩, Cell.text "x"]],
   [[Cell.geom ⟨gMPoly⟩, Cell.text "z"]]⟩

def fc3 : FC := ⟨[("name", "three")],
  [⟨some gPoint, some []⟩, ⟨some gPoint, some []⟩, ⟨some gPoint, some []⟩]⟩

def fc5 : FC := ⟨[("name", "five")],
  [⟨some gPoint, some []⟩, ⟨some gPoint, some []⟩, ⟨some gPoint, some []⟩,
   ⟨some gPoint, some []⟩, ⟨some gPoint, some []⟩]⟩

/-- A collection whose second feature has a malformed geometry payload. -/
def fcBadGeom : FC := ⟨[],
  [⟨some gPoint, some [("a", PValue.str "1")]⟩,
   ⟨some gNoCoords, some [("a", PValue.str "2")]⟩]⟩

/-- A collection with one feature of an unrecognized geometry type. -/
def fcMultiPoint : FC := ⟨[], [⟨some gMPoint, some [("a", PValue.str "1")]⟩]⟩

/-- A collection whose second feature has no (or a null) `properties`
member. -/
def fcNoProps : FC := ⟨[],
  [⟨some gPoint, some [("a", PValue.str "1")]⟩, ⟨some gPoint, none⟩]⟩

/-! ### Classification by the raw discriminant -/

theorem typeTok_gjType (ft : Feature) (hok : featOK ft = true) :
    ((typeTok ft == some "POINT") = (gjType ft == some "Point")) ∧
    ((typeTok ft == some "POLYLINE") =
      (gjType ft == some "LineString" || gjType ft == some "MultiLineString")) ∧
    ((typeTok ft == some "POLYGON") =
      (gjType ft == some "Polygon" || gjType ft == some "MultiPolygon")) := by
  obtain ⟨g, ps, pg, hg, hp, hpgg⟩ := featOK_elim ft hok
  have htt := typeTok_eq ft g pg hg hpgg
  obtain ⟨_, _, t, ht, hc⟩ := parse_geometry_spec g pg hpgg
  have hgj : gjType ft = some t := by simp [gjType, hg, ht]
  rw [htt, hgj]
  rcases hc with ⟨h1, h2⟩ | ⟨h1, h2⟩ | ⟨h1, h2⟩
  · subst h1; rw [h2]
    exact ⟨by decide, by decide, by decide⟩
  · rcases h1 with h1 | h1 <;> subst h1 <;> rw [h2] <;>
      exact ⟨by decide, by decide, by decide⟩
  · rcases h1 with h1 | h1 <;> subst h1 <;> rw [h2] <;>
      exact ⟨by decide, by decide, by decide⟩

/-! ### The claims -/

/-- Claim C1: for every FeatureCollection on which build_schema succeeds
(dict keys well-formed), every row placed in any of the three output buckets
has exactly len(fields) + 1 entries: the normalized geometry value first,
followed by the stringified attribute values ordered by a lexicographic sort
of the field names (so determined by the sorted unified field set alone,
independent of the properties' insertion order), with attributes absent from
the source feature rendered as the empty string (the lookup default). -/
theorem claim_C1_row_shape (fc : FC) (res : SchemaResult) (fc' : FC) (r : Row)
    (hwf : wfFC fc = true)
    (h : build_schema fc = .ok (res, fc'))
    (hr : r ∈ res.point_rows ++ res.line_rows ++ res.polygon_rows) :
    r.length = res.fields.length + 1 ∧
    ∃ ft ∈ fc.features, ∃ ps, ft.properties = some ps ∧ ∃ eg,
      r = Cell.geom eg ::
        (sortedFieldNames res.fields).map
          (fun k => Cell.text (lookupD ps k (PValue.str "")).pystr) := by
  obtain ⟨hall, hfields, _, hpt, hln, hpl, _, _⟩ := build_schema_ok_elim fc res fc' h
  have hfnd : res.fields.Nodup := by
    rw [hfields]; exact nodup_dedupFirstSeen _
  have hmem : ∃ ft ∈ fc.features, r = rowFn res.fields ft := by
    rcases List.mem_append.mp hr with hr2 | hr2
    · rcases List.mem_append.mp hr2 with hr3 | hr3
      · rw [hpt] at hr3
        rcases List.mem_map.mp hr3 with ⟨ft, hm, he⟩
        exact ⟨ft, List.mem_of_mem_filter hm, he.symm⟩
      · rw [hln] at hr3
        rcases List.mem_map.mp hr3 with ⟨ft, hm, he⟩
        exact ⟨ft, List.mem_of_mem_filter hm, he.symm⟩
    · rw [hpl] at hr2
      rcases List.mem_map.mp hr2 with ⟨ft, hm, he⟩
      exact ⟨ft, List.mem_of_mem_filter hm, he.symm⟩
  obtain ⟨ft, hm, hfr⟩ := hmem
  obtain ⟨g, ps, pg, hg, hp, hpgg⟩ := featOK_elim ft (hall ft hm)
  have hnd : (ps.map Prod.fst).Nodup := wfFC_elim fc ft ps hwf hm hp
  have hsub : ∀ k ∈ ps.map Prod.fst, k ∈ res.fields := by
    intro k hk
    rw [hfields]
    exact mem_fields_of_key fc ft ps k hm hp hk
  have hrow := rowFn_eq res.fields ft g ps pg hg hp hpgg hnd hfnd hsub
  constructor
  · rw [hfr, hrow]
    simp [length_sortedFieldNames]
  · exact ⟨ft, hm, ps, hp, pg.esri_geom, by rw [hfr, hrow]⟩

theorem claim_C1_witness :
    rEx.length = resEx.fields.length + 1 ∧
    ∃ ft ∈ fcEx.features, ∃ ps, ft.properties = some ps ∧ ∃ eg,
      rEx = Cell.geom eg ::
        (sortedFieldNames resEx.fields).map
          (fun k => Cell.text (lookupD ps k (PValue.str "")).pystr) :=
  claim_C1_row_shape fcEx resEx fcExMut rEx (by decide) (by decide) (by decide)

/-- Claim C2: the `fields` list returned by build_schema is the union of the
property keys of all features, deduplicated, in first-seen order:
`dedupFirstSeen (allKeys fc)` walks the features in sequence and each
feature's properties in their own order, keeping only first occurrences. -/
theorem claim_C2_fields (fc : FC) (res : SchemaResult) (fc' : FC)
    (h : build_schema fc = .ok (res, fc')) :
    res.fields = dedupFirstSeen (allKeys fc) ∧
    res.fields.Nodup ∧
    ∀ k, (k ∈ res.fields ↔
      ∃ ft ∈ fc.features, ∃ ps, ft.properties = some ps ∧ k ∈ ps.map Prod.fst) := by
  obtain ⟨hall, hfields, _⟩ := build_schema_ok_elim fc res fc' h
  refine ⟨hfields, hfields ▸ nodup_dedupFirstSeen _, ?_⟩
  intro k
  rw [hfields, mem_dedupFirstSeen, allKeys, List.mem_flatten]
  constructor
  · rintro ⟨l, hl, hkl⟩
    rcases List.mem_map.mp hl with ⟨ft, hm, hfeq⟩
    obtain ⟨g, ps, pg, hg, hp, _⟩ := featOK_elim ft (hall ft hm)
    refine ⟨ft, hm, ps, hp, ?_⟩
    rw [← hfeq] at hkl
    simpa [featKeys, hp] using hkl
  · rintro ⟨ft, hm, ps, hp, hk⟩
    exact ⟨featKeys ft, List.mem_map_of_mem featKeys hm, by simp [featKeys, hp, hk]⟩

theorem claim_C2_witness :
    resEx.fields = dedupFirstSeen (allKeys fcEx) ∧
    resEx.fields.Nodup ∧
    ∀ k, (k ∈ resEx.fields ↔
      ∃ ft ∈ fcEx.features, ∃ ps, ft.properties = some ps ∧ k ∈ ps.map Prod.fst) :=
  claim_C2_fields fcEx resEx fcExMut (by decide)

/-- Claim C3: classification is decided by the geometry type discriminant
alone: the point bucket is exactly one row (built by the row builder) per
feature whose discriminant is `Point`, the polyline bucket one per
`LineString`/`MultiLineString` feature, the polygon bucket one per
`Polygon`/`MultiPolygon` feature, in input order; multi-part variants are one
row each, not split. -/
theorem claim_C3_buckets (fc : FC) (res : SchemaResult) (fc' : FC)
    (h : build_schema fc = .ok (res, fc')) :
    res.point_rows =
      (fc.features.filter (fun ft => gjType ft == some "Point")).map (rowFn res.fields) ∧
    res.line_rows =
      (fc.features.filter (fun ft =>
        gjType ft == some "LineString" || gjType ft == some "MultiLineString")).map
          (rowFn res.fields) ∧
    res.polygon_rows =
      (fc.features.filter (fun ft =>
        gjType ft == some "Polygon" || gjType ft == some "MultiPolygon")).map
          (rowFn res.fields) := by
  obtain ⟨hall, _, _, hpt, hln, hpl, _, _⟩ := build_schema_ok_elim fc res fc' h
  refine ⟨?_, ?_, ?_⟩
  · rw [hpt]
    congr 1
    exact List.filter_congr (fun ft hm => (typeTok_gjType ft (hall ft hm)).1)
  · rw [hln]
    congr 1
    exact List.filter_congr (fun ft hm => (typeTok_gjType ft (hall ft hm)).2.1)
  · rw [hpl]
    congr 1
    exact List.filter_congr (fun ft hm => (typeTok_gjType ft (hall ft hm)).2.2)

theorem claim_C3_witness :
    resMix.point_rows =
      (fcMix.features.filter (fun ft => gjType ft == some "Point")).map (rowFn resMix.fields) ∧
    resMix.line_rows =
      (fcMix.features.filter (fun ft =>
        gjType ft == some "LineString" || gjType ft == some "MultiLineString")).map
          (rowFn resMix.fields) ∧
    resMix.polygon_rows =
      (fcMix.features.filter (fun ft =>
        gjType ft == some "Polygon" || gjType ft == some "MultiPolygon")).map
          (rowFn resMix.fields) :=
  claim_C3_buckets fcMix resMix fcMix (by decide)

/-- Claim C4 (the code, at the claim's failing input): a feature whose
geometry payload is malformed makes `parse_geometry` catch the `KeyError`,
log and return `False` — but `build_schema` then subscripts that `False`
(`parsed_geom['type']`, line 66), raising `TypeError`: the whole call aborts
instead of skipping the one feature, so the first, healthy feature produces
no row either. -/
theorem claim_C4_crash :
    build_schema fcBadGeom = .error .typeError ∧
    parse_geometry gNoCoords = none ∧
    asShape gNoCoords = .error .keyError := by decide

/-- Claim C5, counterexample: a feature with the unrecognized geometry type
`MultiPoint` is not classified into the polygon bucket — `parse_geometry`
returns `False` and `build_schema` raises `TypeError` subscripting it, so the
run aborts with no output at all. -/
theorem claim_C5_counterexample :
    build_schema fcMultiPoint = .error .typeError ∧
    parse_geometry gMPoint = none := by decide

/-- Claim C5, amended: for every feature whose geometry type discriminant is
outside the recognized set, `parse_geometry` logs and returns the failure
marker (`False`, here `none`), and a collection containing such a feature can
never complete `build_schema`: the feature reaches no bucket (in particular
not the polygon bucket) because the run raises before returning.  The `else`
fallthrough of lines 77-80 is reached only by `POLYGON`-classified
geometries. -/
theorem claim_C5_amended (fc : FC) (ft : Feature) (g : Geometry) (t : String)
    (hm : ft ∈ fc.features) (hg : ft.geometry = some g) (ht : g.gtype = some t)
    (hbad : t ∉ ["Point", "LineString", "MultiLineString", "Polygon", "MultiPolygon"]) :
    parse_geometry g = none ∧ ∀ out, build_schema fc ≠ .ok out := by
  have hnone := parse_geometry_unrecognized g t ht hbad
  refine ⟨hnone, ?_⟩
  rintro ⟨res, fc'⟩ h
  have hall := (build_schema_ok_elim fc res fc' h).1
  obtain ⟨g2, ps, pg, hg2, hp, hpg⟩ := featOK_elim ft (hall ft hm)
  rw [hg] at hg2
  rw [← Option.some.inj hg2] at hpg
  rw [hnone] at hpg
  exact absurd hpg (by simp)

theorem claim_C5_witness :
    parse_geometry gMPoint = none ∧ ∀ out, build_schema fcMultiPoint ≠ .ok out :=
  claim_C5_amended fcMultiPoint ⟨some gMPoint, some [("a", PValue.str "1")]⟩ gMPoint
    "MultiPoint" (by decide) rfl rfl (by decide)

/-- Claim C6: merging a non-empty sequence of collections keeps the first
collection as the base container (its top-level metadata preserved, the
others' discarded) and concatenates every collection's features in input
order; merging collections of 3 and 5 features gives exactly 8, and merging a
collection with itself doubles the feature count. -/
theorem claim_C6_merge (c : FC) (rest : List FC) (c1 c2 d : FC)
    (h1 : c1.features.length = 3) (h2 : c2.features.length = 5) :
    merge_geojson (c :: rest) =
      .ok ⟨c.meta, c.features ++ (rest.map FC.features).flatten⟩ ∧
    (∃ m, merge_geojson [c1, c2] = .ok m ∧ m.meta = c1.meta ∧
      m.features = c1.features ++ c2.features ∧ m.features.length = 8) ∧
    (∃ m, merge_geojson [d, d] = .ok m ∧
      m.features.length = 2 * d.features.length) := by
  refine ⟨merge_geojson_cons c rest, ?_, ?_⟩
  · refine ⟨_, merge_geojson_cons c1 [c2], rfl, ?_, ?_⟩
    · simp
    · simp [h1, h2]
  · refine ⟨_, merge_geojson_cons d [d], ?_⟩
    simp [two_mul]

theorem claim_C6_witness :
    merge_geojson (fcEx :: [fcMix]) =
      .ok ⟨fcEx.meta, fcEx.features ++ ([fcMix].map FC.features).flatten⟩ ∧
    (∃ m, merge_geojson [fc3, fc5] = .ok m ∧ m.meta = fc3.meta ∧
      m.features = fc3.features ++ fc5.features ∧ m.features.length = 8) ∧
    (∃ m, merge_geojson [fcEx, fcEx] = .ok m ∧
      m.features.length = 2 * fcEx.features.length) :=
  claim_C6_merge fcEx [fcMix] fc3 fc5 fcEx (by decide) (by decide)

/-- Claim C7: merging an empty input sequence fails fatally (the subscript
`gj_list[0]` raises `IndexError`, the spec's `EmptyInputError` condition) and
produces no merged collection. -/
theorem claim_C7_empty :
    merge_geojson ([] : List FC) = .error .indexError ∧
    ∀ m : FC, merge_geojson ([] : List FC) ≠ .ok m := by
  refine ⟨rfl, ?_⟩
  intro m h
  exact absurd h (by simp [merge_geojson])

/-- Claim C8: `field_defs` holds exactly one definition per unified field
name — the tuple (name, "TEXT", name with underscores replaced by spaces,
256) — with no duplicates (it equals the sorted field list mapped through the
definition constructor, and the definition names are distinct); and running
build_schema again on the collection the first call left behind yields
`field_defs` identical in content. -/
theorem claim_C8_field_defs (fc : FC) (res : SchemaResult) (fc' : FC)
    (hwf : wfFC fc = true) (h : build_schema fc = .ok (res, fc')) :
    res.field_defs = (sortedFieldNames res.fields).map mkFieldDef ∧
    (res.field_defs.map (fun d => d.1)).Nodup ∧
    (∀ k, k ∈ res.fields ↔ mkFieldDef k ∈ res.field_defs) ∧
    ∃ res2 fc2, build_schema fc' = .ok (res2, fc2) ∧
      res2.field_defs = res.field_defs := by
  have h1 := field_defs_closed_form fc res fc' hwf h
  obtain ⟨hall, hfields, _, _, _, _, _, hfeats⟩ := build_schema_ok_elim fc res fc' h
  have hfnd : res.fields.Nodup := hfields ▸ nodup_dedupFirstSeen _
  refine ⟨h1, ?_, ?_, ?_⟩
  · rw [h1, List.map_map]
    have hid : ((fun d : FieldDef => d.1) ∘ mkFieldDef) = fun k => k := rfl
    rw [hid, List.map_id']
    exact nodup_sortedFieldNames _ hfnd
  · intro k
    rw [h1]
    constructor
    · intro hk
      exact List.mem_map_of_mem mkFieldDef ((mem_sortedFieldNames _ k).mpr hk)
    · intro hk
      rcases List.mem_map.mp hk with ⟨k2, hk2, he⟩
      rw [← mkFieldDef_inj k2 k he]
      exact (mem_sortedFieldNames _ k2).mp hk2
  · have hall2 : ∀ ft2 ∈ fc'.features, featOK ft2 = true := by
      intro ft2 hm2
      rw [hfeats] at hm2
      rcases List.mem_map.mp hm2 with ⟨ft, hm, hft2⟩
      rw [← hft2]
      exact featOK_mutFeat res.fields ft (hall ft hm)
    obtain ⟨res2, fc2, h2⟩ := build_schema_of_featOK fc' hall2
    refine ⟨res2, fc2, h2, ?_⟩
    have hwf2 := wfFC_mut fc res fc' hwf h
    have hd2 := field_defs_closed_form fc' res2 fc2 hwf2 h2
    have hfields2 := (build_schema_ok_elim fc' res2 fc2 h2).2.1
    have hfnd2 : res2.fields.Nodup := hfields2 ▸ nodup_dedupFirstSeen _
    rw [hd2, h1]
    congr 1
    apply sortedFieldNames_eq_of_set_eq _ _ hfnd2 hfnd
    intro k
    rw [hfields2]
    exact mut_keys_set fc res fc' h k

theorem claim_C8_witness :
    resEx.field_defs = (sortedFieldNames resEx.fields).map mkFieldDef ∧
    (resEx.field_defs.map (fun d => d.1)).Nodup ∧
    (∀ k, k ∈ resEx.fields ↔ mkFieldDef k ∈ resEx.field_defs) ∧
    ∃ res2 fc2, build_schema fcExMut = .ok (res2, fc2) ∧
      res2.field_defs = resEx.field_defs :=
  claim_C8_field_defs fcEx resEx fcExMut (by decide) (by decide)

/-- Claim C9, counterexample: build_schema does mutate the collection.  On
`fcEx` (two features with disjoint keys) the call succeeds and leaves the
features' properties backfilled: the collection after the call differs from
the collection before it. -/
theorem claim_C9_counterexample :
    build_schema fcEx = .ok (resEx, fcExMut) ∧ fcExMut ≠ fcEx := by decide

/-- Claim C9, amended: build_schema leaves the feature list's length, order,
geometries and metadata unchanged and does not alter any existing property
value, but it does write through to each feature's properties: every unified
field missing from a feature is appended to that feature's own mapping with
an empty-string value (lines 55-57).  A feature already carrying every field
is left unchanged. -/
theorem claim_C9_amended (fc : FC) (res : SchemaResult) (fc' : FC)
    (h : build_schema fc = .ok (res, fc')) :
    fc'.meta = fc.meta ∧
    fc'.features = fc.features.map (fun ft =>
      { ft with properties := ft.properties.map (fun ps =>
          ps ++ (res.fields.filter (fun f => decide (f ∉ ps.map Prod.fst))).map
            (fun f => (f, PValue.str ""))) }) := by
  obtain ⟨hall, hfields, _, _, _, _, hmeta, hfeats⟩ := build_schema_ok_elim fc res fc' h
  have hfnd : res.fields.Nodup := hfields ▸ nodup_dedupFirstSeen _
  refine ⟨hmeta, ?_⟩
  rw [hfeats]
  apply List.map_congr_left
  intro ft hm
  obtain ⟨g, ps, pg, hg, hp, _⟩ := featOK_elim ft (hall ft hm)
  simp only [mutFeat, hp, Option.map_some']
  rw [backfill_eq ps res.fields hfnd]

theorem claim_C9_witness :
    fcExMut.meta = fcEx.meta ∧
    fcExMut.features = fcEx.features.map (fun ft =>
      { ft with properties := ft.properties.map (fun ps =>
          ps ++ (resEx.fields.filter (fun f => decide (f ∉ ps.map Prod.fst))).map
            (fun f => (f, PValue.str ""))) }) :=
  claim_C9_amended fcEx resEx fcExMut (by decide)

/-- Claim C10: a feature without a `properties` member (or with a null one)
makes the whole build_schema call raise: `i.get('properties')` yields `None`
and the first pass's `props.items()` raises `AttributeError` before anything
is returned — the feature is not skipped, and even the healthy first feature
produces no row. -/
theorem claim_C10_missing_properties :
    build_schema fcNoProps = .error .attributeError ∧
    fcNoProps.features.getLast? = some ⟨some gPoint, none⟩ := by decide
